import Mathlib

set_option linter.unusedVariables false
set_option maxRecDepth 10000
set_option exponentiation.threshold 1100

/-- Model of a dynamic Go `interface\x7b\x7d` value as produced by the YAML loader
and by `encoding/json`. Numeric values are modelled by integers (the program's
own number handling converts template numbers with `int(num)`; fractional
float payloads are represented by their truncation, a restriction noted where
it matters). `null` models a nil interface value. Maps are association lists
in insertion order (Go maps are unordered; no verified property depends on
map order). -/
inductive Value where
  | str (s : String)
  | int (n : Int)
  | bool (b : Bool)
  | null
  | arr (xs : List Value)
  | obj (kvs : List (String × Value))
deriving Repr

/-- Space-separated join, as Go `fmt` separates slice and map elements. -/
def joinSpace : List String → String
  | [] => ""
  | [s] => s
  | s :: rest => s ++ " " ++ joinSpace rest

/-- Code-point-wise string order, matching the byte order Go uses to sort map
keys (UTF-8 encoding preserves code-point order). -/
def charsLe : List Char → List Char → Bool
  | [], _ => true
  | _ :: _, [] => false
  | c :: cs, d :: ds =>
      if c.toNat < d.toNat then true
      else if d.toNat < c.toNat then false
      else charsLe cs ds

/-- String order used for Go map-key sorting. -/
def strLe (a b : String) : Bool := charsLe a.data b.data

/-- Insertion of one key/rendered-value pair into a key-sorted list (helper
for the sorted map rendering Go `fmt` performs). -/
def insertByKey (p : String × String) : List (String × String) → List (String × String)
  | [] => [p]
  | q :: rest => if strLe p.1 q.1 then p :: q :: rest else q :: insertByKey p rest

/-- Sort rendered map entries by key (Go `fmt` prints map keys in sorted
order; sorting by key commutes with rendering each entry). -/
def sortByKey : List (String × String) → List (String × String)
  | [] => []
  | p :: rest => insertByKey p (sortByKey rest)

mutual

/-- Rendering of a value by Go `fmt` default formatting (used when
`text/template` prints a resolved value): strings verbatim, numbers in
decimal, `true`/`false`, nil as `<nil>`, slices as `[x y]`, maps as
`map[k:v]` with keys sorted. -/
def goFmt : Value → String
  | .str s => s
  | .int n => toString n
  | .bool b => if b then "true" else "false"
  | .null => "<nil>"
  | .arr xs => "[" ++ joinSpace (goFmtList xs) ++ "]"
  | .obj kvs =>
      "map[" ++ joinSpace ((sortByKey (goFmtKVs kvs)).map fun p => p.1 ++ ":" ++ p.2) ++ "]"

def goFmtList : List Value → List String
  | [] => []
  | v :: vs => goFmt v :: goFmtList vs

def goFmtKVs : List (String × Value) → List (String × String)
  | [] => []
  | (k, v) :: kvs => (k, goFmt v) :: goFmtKVs kvs

end

example : goFmt (.arr [.int 1, .str "a"]) = "[1 a]" := by rfl
example : goFmt (.obj [("b", .int 2), ("a", .int 1)]) = "map[a:1 b:2]" := by rfl

/-! ## Template evaluator (`evaluateTemplate`, src/cli.go)

The source evaluates pattern strings with Go `text/template`. Patterns are
embedded here as their parsed token sequences (literal text and dotted field
references); the concrete `\x7b\x7b ... \x7d\x7d` syntax and its parser are
external to the engine, so the parse-error branch of `evaluateTemplate`
corresponds to strings outside this grammar and is not representable.
The two helper functions the source registers (`default`, `toJSON`) are not
exercised by any verified property and are omitted from the token grammar. -/

/-- One token of a parsed template pattern: literal text, or a dotted field
reference `.f.rest...` (e.g. `.Value.addr` is `ref "Value" ["addr"]`). The
head of a reference is resolved against the `ExecutionContext` struct. -/
inductive Tok where
  | lit (s : String)
  | ref (f : String) (rest : List String)
deriving Repr

/-- A parsed template pattern: the token sequence of one pattern string. -/
abbrev Pat := List Tok

/-- ExecutionContext (src/cli.go): fields `Key`, `Value`, `Datacenter`,
`Item` of the Go struct (lower-cased as Lean field names). `item` is the Go
`interface\x7b\x7d` field, `Value.null` when outside a foreach loop. -/
structure ExecutionContext where
  key : String
  value : List (String × Value)
  datacenter : String
  item : Value
deriving Repr

/-- Field resolution step along a reference path, mirroring
`text/template`'s `evalField`: an invalid receiver (`none`, from a missing
map key) propagates silently; a field of a nil interface or of a non-map
value is an execution error; a map is indexed, a missing key producing the
invalid value. -/
def walkPath : Option Value → List String → Except String (Option Value)
  | v, [] => .ok v
  | none, _ :: rest => walkPath none rest
  | some .null, f :: _ => .error ("nil pointer evaluating interface." ++ f)
  | some (.obj kvs), f :: rest => walkPath (kvs.lookup f) rest
  | some _, f :: _ => .error ("cannot evaluate field " ++ f ++ " in type interface")

/-- Resolution of the head of a reference against the `ExecutionContext`
struct, as `text/template` resolves the first path segment against the data
it executes with; a field the struct does not have is an execution error. -/
def resolveRoot (ctx : ExecutionContext) : String → Except String (Option Value)
  | "Key" => .ok (some (.str ctx.key))
  | "Value" => .ok (some (.obj ctx.value))
  | "Datacenter" => .ok (some (.str ctx.datacenter))
  | "Item" => .ok (some ctx.item)
  | f => .error ("cannot evaluate field " ++ f ++ " in type ExecutionContext")

/-- Full resolution of one dotted reference. -/
def resolveRef (ctx : ExecutionContext) (f : String) (rest : List String) :
    Except String (Option Value) := do
  walkPath (← resolveRoot ctx f) rest

/-- Printing of a resolved value, as `text/template` writes it to the output
buffer: the invalid value (missing key) prints as the `<no value>` marker,
anything else by Go `fmt` default formatting. -/
def printResolved : Option Value → String
  | none => "<no value>"
  | some v => goFmt v

/-- Execution of one token. -/
def execTok (ctx : ExecutionContext) : Tok → Except String String
  | .lit s => .ok s
  | .ref f rest => do .ok (printResolved (← resolveRef ctx f rest))

/-- Execution of a whole pattern: token outputs concatenated, stopping at the
first execution error (`tmpl.Execute`). -/
def execPat (ctx : ExecutionContext) : Pat → Except String String
  | [] => .ok ""
  | t :: ts => do .ok ((← execTok ctx t) ++ (← execPat ctx ts))

/-- evaluateTemplate (src/cli.go): execute the pattern, wrap execution
errors, and map an empty or `<no value>` result to the empty string. -/
def evaluateTemplate (p : Pat) (ctx : ExecutionContext) : Except String String :=
  match execPat ctx p with
  | .error e => .error ("template execution error: " ++ e)
  | .ok result =>
      if result = "<no value>" ∨ result = "" then .ok "" else .ok result

example :
    evaluateTemplate [.ref "Key" []] ⟨"node-001", [], "", .null⟩ = .ok "node-001" := by rfl
example :
    evaluateTemplate [.ref "Value" ["service"]]
      ⟨"", [("service", .str "nginx")], "", .null⟩ = .ok "nginx" := by rfl
example :
    evaluateTemplate [.ref "Value" ["missing"]] ⟨"", [], "", .null⟩ = .ok "" := by rfl
example :
    evaluateTemplate [.ref "Item" ["name"]]
      ⟨"", [], "", .obj [("name", .str "ssh")]⟩ = .ok "ssh" := by rfl
example :
    evaluateTemplate [.ref "Datacenter" []] ⟨"", [], "dc1", .null⟩ = .ok "dc1" := by rfl

/-! ## JSON decoding (`encoding/json`, used by src/cli.go)

`processTemplate` tries `json.Unmarshal` of an evaluated string into a
`float64` (number coercion) and `evaluateForeach` tries `json.Unmarshal`
into a `\x5b\x5dinterface\x7b\x7d` (the JSON-array fallback). Both are modelled here.
The number grammar is RFC 8259's, surrounded by optional JSON whitespace.
A number literal is converted exactly as `strconv.ParseFloat` converts it:
the denoted decimal is rounded to the nearest IEEE-754 binary64 value
(round half to even, subnormals included), computed here in exact rational
arithmetic; a literal whose rounded magnitude reaches 2^1024 overflows,
which `ParseFloat` reports as a range error and `json.Unmarshal` turns into
a decode failure (underflow rounds to zero without error). `int(num)` then
truncates the float64 value toward zero. -/

/-- JSON insignificant whitespace. -/
def isJsonWs (c : Char) : Bool := c = ' ' ∨ c = '\t' ∨ c = '\n' ∨ c = '\r'

/-- Strip leading and trailing JSON whitespace. -/
def stripWs (cs : List Char) : List Char :=
  ((cs.dropWhile isJsonWs).reverse.dropWhile isJsonWs).reverse

/-- Numeric value of a digit string. -/
def digitsVal (ds : List Char) : Nat :=
  ds.foldl (fun a c => a * 10 + (c.toNat - 48)) 0

/-- The syntactic parts of a JSON number literal: sign, integer digits,
fraction digits, exponent. -/
structure NumParts where
  neg : Bool
  intDigits : List Char
  fracDigits : List Char
  exp : Int
deriving Repr

/-- Parse the exponent suffix of a JSON number (empty, or `e`/`E`, optional
sign, one or more digits), requiring full consumption. -/
def parseExpPart (neg : Bool) (I F : List Char) : List Char → Option NumParts
  | [] => some ⟨neg, I, F, 0⟩
  | e :: rest =>
      if e = 'e' ∨ e = 'E' then
        let (esign, rest') :=
          match rest with
          | '+' :: r => ((1 : Int), r)
          | '-' :: r => ((-1 : Int), r)
          | r => ((1 : Int), r)
        let D := rest'.takeWhile Char.isDigit
        if D.isEmpty then none
        else if (rest'.dropWhile Char.isDigit).isEmpty then
          some ⟨neg, I, F, esign * (digitsVal D : Int)⟩
        else none
      else none

/-- Parse the fraction-and-exponent suffix of a JSON number. -/
def parseFracPart (neg : Bool) (I : List Char) : List Char → Option NumParts
  | '.' :: rest =>
      let F := rest.takeWhile Char.isDigit
      if F.isEmpty then none
      else parseExpPart neg I F (rest.dropWhile Char.isDigit)
  | cs => parseExpPart neg I [] cs

/-- Parse a whole string as a JSON number literal (optional `-`, `0` or a
nonzero-led digit run, optional fraction, optional exponent), allowing the
surrounding whitespace `json.Unmarshal` accepts. `none` when the string is
not exactly a JSON number. -/
def parseNumParts (s : String) : Option NumParts :=
  let cs := stripWs s.data
  let (neg, cs) := match cs with
    | '-' :: rest => (true, rest)
    | cs => (false, cs)
  match cs with
  | [] => none
  | c :: _ =>
      if c.isDigit then
        let I := cs.takeWhile Char.isDigit
        if 1 < I.length ∧ I.headI = '0' then none
        else parseFracPart neg I (cs.dropWhile Char.isDigit)
      else none

/-- `a/b < 2^e`, decided in integer arithmetic on an unreduced nonnegative
fraction. -/
def ltPow2 (a b : ℕ) (e : ℤ) : Bool :=
  if 0 ≤ e then a < b * 2 ^ e.toNat else a * 2 ^ (-e).toNat < b

/-- Binary search for `⌊log₂ (a/b)⌋` on an exponent interval `[lo, hi)` with
the invariant `2^lo ≤ a/b < 2^hi`; twelve steps cover the whole float64
exponent range. -/
def searchE (a b : ℕ) : ℕ → ℤ → ℤ → ℤ
  | 0, lo, _ => lo
  | fuel + 1, lo, hi =>
      if hi ≤ lo + 1 then lo
      else
        let mid := (lo + hi) / 2
        if ltPow2 a b mid then searchE a b fuel lo mid else searchE a b fuel mid hi

/-- Round the nonnegative fraction `a/b` to the nearest integer, ties to
even (the IEEE-754 default rounding `strconv.ParseFloat` uses). -/
def roundHalfEvenFrac (a b : ℕ) : ℕ :=
  if 2 * (a % b) < b then a / b
  else if b < 2 * (a % b) then a / b + 1
  else if a / b % 2 = 0 then a / b else a / b + 1

/-- Scale the fraction `a/b` by `2^e` without reducing. -/
def scalePow2 (a b : ℕ) (e : ℤ) : ℕ × ℕ :=
  if 0 ≤ e then (a * 2 ^ e.toNat, b) else (a, b * 2 ^ (-e).toNat)

/-- Scale the fraction `a/b` by `10^e` without reducing. -/
def scalePow10 (a b : ℕ) (e : ℤ) : ℕ × ℕ :=
  if 0 ≤ e then (a * 10 ^ e.toNat, b) else (a, b * 10 ^ (-e).toNat)

/-- Round the positive magnitude `a/b` to the nearest binary64, as
`strconv.ParseFloat` does, returning significand and binade exponent:
granularity is `2^(⌊log₂(a/b)⌋ - 52)`, floored at the subnormal granularity
`2^(-1074)` (below `2^(-1075)` everything rounds to zero at that same
granularity, so the binade search is skipped); a significand that rounds up
to `2^53` moves up one binade; a magnitude at or beyond `2^1024` — directly,
or via that renormalization (exponent above 971) — overflows to
`ParseFloat`'s range error (`none`); underflow rounds to zero without
error. The assembly step `floatFinish` performs the renormalization and
overflow check. -/
def floatFinish (g : ℤ) (n : ℕ) : Option (ℕ × ℤ) :=
  if n = 2 ^ 53 then (if 971 < g + 1 then none else some (2 ^ 52, g + 1))
  else (if 971 < g then none else some (n, g))

/-- Round `a/b` at granularity `2^g` and assemble (see `floatParts`). -/
def floatGran (a b : ℕ) (g : ℤ) : Option (ℕ × ℤ) :=
  floatFinish g (roundHalfEvenFrac (scalePow2 a b (-g)).1 (scalePow2 a b (-g)).2)

/-- Round `a/b` within the binade of exponent `E` (granularity `2^(E-52)`,
floored at the subnormal granularity). -/
def floatRoundAt (a b : ℕ) (E : ℤ) : Option (ℕ × ℤ) :=
  floatGran a b (max (E - 52) (-1074))

/-- See the section comment above `floatFinish`. -/
def floatParts (a b : ℕ) : Option (ℕ × ℤ) :=
  if a = 0 then some (0, 0)
  else if ¬ ltPow2 a b 1024 then none
  else if ltPow2 a b (-1075) then floatRoundAt a b (-1075)
  else floatRoundAt a b (searchE a b 12 (-1075) 1024)

/-- Truncation toward zero of `n * 2^g` (exact for `g ≥ 0`, a floor division
for `g < 0` — toward-zero and floor agree on nonnegative values). -/
def truncPow2 (n : ℕ) (g : ℤ) : ℕ :=
  if 0 ≤ g then n * 2 ^ g.toNat else n / 2 ^ (-g).toNat

/-- The magnitude of a parsed JSON number as an unreduced fraction:
`digits(I ++ F) * 10^(exp - |F|)`. -/
def partsToFrac (p : NumParts) : ℕ × ℕ :=
  scalePow10 (digitsVal (p.intDigits ++ p.fracDigits)) 1
    (p.exp - (p.fracDigits.length : Int))

/-- The float64 value a JSON number decodes to (as `encoding/json` stores in
an `interface\x7b\x7d`), represented in the integer `Value` model by its
truncation toward zero (the pre-existing numeric restriction of `Value`);
`none` is `ParseFloat`'s overflow range error, which fails the decode. -/
def jsonNumValue (p : NumParts) : Option Int :=
  (floatParts (partsToFrac p).1 (partsToFrac p).2).map fun nq =>
    if p.neg then -(truncPow2 nq.1 nq.2 : Int) else (truncPow2 nq.1 nq.2 : Int)

/-- The number-coercion step of `processTemplate` (src/cli.go):
`json.Unmarshal` of the string into a `float64` (grammar check, then
`ParseFloat` with its overflow error) followed by Go's `int(num)` —
truncation toward zero, with values outside the 64-bit int range yielding
the amd64 indefinite value `-2^63` (the Go specification leaves that
conversion implementation-specific; arm64 saturates instead — no verified
statement depends on that region). -/
def parseJSONNumber (s : String) : Option Int :=
  (parseNumParts s).bind fun p =>
    (jsonNumValue p).map fun t =>
      if -(2 ^ 63) ≤ t ∧ t < 2 ^ 63 then t else -(2 ^ 63)

example : parseJSONNumber "8080" = some 8080 := by rfl
example : parseJSONNumber "3.14" = some 3 := by rfl
example : parseJSONNumber "-3.99" = some (-3) := by rfl
example : parseJSONNumber "1e3" = some 1000 := by rfl
example : parseJSONNumber "12.5e-1" = some 1 := by rfl
example : parseJSONNumber "" = none := by rfl
example : parseJSONNumber "08" = none := by rfl
example : parseJSONNumber "5." = none := by rfl
example : parseJSONNumber " 42 " = some 42 := by rfl
example : parseJSONNumber "abc" = none := by rfl
example : parseJSONNumber "-0" = some 0 := by rfl
example : parseJSONNumber "9007199254740993" = some 9007199254740992 := by rfl
example : parseJSONNumber "3.9999999999999999999" = some 4 := by rfl
example : parseJSONNumber "1e400" = none := by rfl
example : parseJSONNumber "1e-400" = some 0 := by rfl

/-- Skip leading JSON whitespace. -/
def skipWs (cs : List Char) : List Char := cs.dropWhile isJsonWs

/-- Value of a hexadecimal digit. -/
def hexDigitVal (c : Char) : Option Nat :=
  if c.isDigit then some (c.toNat - 48)
  else if 'a' ≤ c ∧ c ≤ 'f' then some (c.toNat - 87)
  else if 'A' ≤ c ∧ c ≤ 'F' then some (c.toNat - 55)
  else none

/-- Single-character JSON string escapes. -/
def escChar (c : Char) : Option Char :=
  if c = '"' then some '"'
  else if c = '\\' then some '\\'
  else if c = '/' then some '/'
  else if c = 'b' then some (Char.ofNat 8)
  else if c = 'f' then some (Char.ofNat 12)
  else if c = 'n' then some '\n'
  else if c = 'r' then some '\r'
  else if c = 't' then some '\t'
  else none

/-- Characters that can make up a JSON number token. -/
def numChar (c : Char) : Bool :=
  c.isDigit ∨ c = '-' ∨ c = '+' ∨ c = '.' ∨ c = 'e' ∨ c = 'E'

/-- The `\x7b` and `\x7d` delimiter characters of JSON objects. -/
def lbrace : Char := Char.ofNat 123

/-- See `lbrace`. -/
def rbrace : Char := Char.ofNat 125

/-- Parse the remainder of a JSON string literal (after the opening quote),
returning its characters and the input after the closing quote. `\u` escapes
are mapped through `Char.ofNat` (UTF-16 surrogate-pair decoding, which Go
performs, is outside the embedding; no verified property exercises it). -/
def pStrChars : Nat → List Char → Option (List Char × List Char)
  | 0, _ => none
  | fuel + 1, cs =>
      match cs with
      | [] => none
      | '"' :: rest => some ([], rest)
      | '\\' :: e :: rest =>
          match escChar e with
          | some c => (pStrChars fuel rest).map fun p => (c :: p.1, p.2)
          | none =>
              match e, rest with
              | 'u', h1 :: h2 :: h3 :: h4 :: rest' =>
                  match hexDigitVal h1, hexDigitVal h2, hexDigitVal h3, hexDigitVal h4 with
                  | some a, some b, some c, some d =>
                      (pStrChars fuel rest').map fun p =>
                        (Char.ofNat (((a * 16 + b) * 16 + c) * 16 + d) :: p.1, p.2)
                  | _, _, _, _ => none
              | _, _ => none
      | c :: rest =>
          if c.toNat < 32 then none
          else (pStrChars fuel rest).map fun p => (c :: p.1, p.2)

mutual

/-- Parse one JSON value at the head of the input (whitespace already
skipped), as `encoding/json` decodes into an `interface\x7b\x7d`: numbers are
float64-rounded then represented by their truncation toward zero (the
pre-existing integer restriction of `Value`); a number overflowing float64
fails the whole decode, as `json.Unmarshal` does (see the module
comment). -/
def pVal : Nat → List Char → Option (Value × List Char)
  | 0, _ => none
  | fuel + 1, cs =>
      match cs with
      | 'n' :: 'u' :: 'l' :: 'l' :: rest => some (.null, rest)
      | 't' :: 'r' :: 'u' :: 'e' :: rest => some (.bool true, rest)
      | 'f' :: 'a' :: 'l' :: 's' :: 'e' :: rest => some (.bool false, rest)
      | '"' :: rest => (pStrChars fuel rest).map fun p => (.str ⟨p.1⟩, p.2)
      | '[' :: rest =>
          (match skipWs rest with
           | ']' :: r => some (.arr [], r)
           | cs1 => (pElems fuel cs1).map fun p => (.arr p.1, p.2))
      | c :: rest =>
          if c = lbrace then
            match skipWs rest with
            | [] => none
            | d :: r =>
                if d = rbrace then some (.obj [], r)
                else (pMembers fuel (d :: r)).map fun p => (.obj p.1, p.2)
          else if numChar c then
            let tok := cs.takeWhile numChar
            match parseNumParts ⟨tok⟩ with
            | some p =>
                match jsonNumValue p with
                | some t => some (.int t, cs.dropWhile numChar)
                | none => none
            | none => none
          else none
      | [] => none

/-- Parse the comma-separated elements of a JSON array (first element at the
head after whitespace), up to and including the closing bracket. -/
def pElems : Nat → List Char → Option (List Value × List Char)
  | 0, _ => none
  | fuel + 1, cs =>
      match pVal fuel (skipWs cs) with
      | none => none
      | some (v, rest) =>
          match skipWs rest with
          | ',' :: r => (pElems fuel r).map fun p => (v :: p.1, p.2)
          | ']' :: r => some ([v], r)
          | _ => none

/-- Parse the members of a JSON object, up to and including the closing
brace. -/
def pMembers : Nat → List Char → Option (List (String × Value) × List Char)
  | 0, _ => none
  | fuel + 1, cs =>
      match skipWs cs with
      | '"' :: rest =>
          match pStrChars fuel rest with
          | none => none
          | some (k, r1) =>
              match skipWs r1 with
              | ':' :: r2 =>
                  (match pVal fuel (skipWs r2) with
                   | none => none
                   | some (v, r3) =>
                       match skipWs r3 with
                       | ',' :: r4 => (pMembers fuel r4).map fun p => ((⟨k⟩, v) :: p.1, p.2)
                       | d :: r4 => if d = rbrace then some ([(⟨k⟩, v)], r4) else none
                       | [] => none)
              | _ => none
      | _ => none

end

/-- `json.Unmarshal` of a string into `\x5b\x5dinterface\x7b\x7d` (the foreach
fallback in src/cli.go): the whole input, up to surrounding whitespace, must
be one JSON array. (A top-level `null` leaves the slice nil in Go, which the
caller treats identically to a decode failure, so it is folded into `none`.) -/
def jsonParseArray (s : String) : Option (List Value) :=
  match pVal (s.length + 1) (skipWs s.data) with
  | some (.arr items, rest) => if (skipWs rest).isEmpty then some items else none
  | _ => none

example : jsonParseArray "[1]" = some [.int 1] := by rfl
example : jsonParseArray "[\"a\", 2, null]" = some [.str "a", .int 2, .null] := by rfl
example : jsonParseArray "hello" = none := by rfl
example : jsonParseArray "5" = none := by rfl
example : jsonParseArray "[]" = some [] := by rfl
example : jsonParseArray "[1," = none := by rfl
example : jsonParseArray " [true] " = some [.bool true] := by rfl

/-! ## Template processor and rule engine (src/cli.go) -/

/-- A template tree node (the `interface\x7b\x7d` values inside an
`OperationRule.Template` as the YAML loader produces them): string leaves are
parsed patterns, maps and sequences recurse, and any other scalar leaf
(number, boolean, null) is carried through unchanged by the processor's
default case. -/
inductive TVal where
  | pat (p : Pat)
  | obj (kvs : List (String × TVal))
  | arr (xs : List TVal)
  | int (n : Int)
  | bool (b : Bool)
  | null
deriving Repr

/-- OperationRule (src/cli.go): `Type`, `Verb`, `Condition`, `Foreach`,
`Template` (lower-cased as Lean field names; `condition`/`foreach` use
`Option` for the Go empty-string zero value meaning "absent"). -/
structure OperationRule where
  type : String
  verb : String
  condition : Option Pat
  foreach : Option Pat
  template : List (String × TVal)
deriving Repr

/-- MappingConfig (src/cli.go): the ordered rule list. -/
structure MappingConfig where
  operations : List OperationRule
deriving Repr

/-- The keep test of `processTemplate`'s map and array cases
(src/cli.go): `processed != nil && processed != "" && processed != "<no value>"`. -/
def keepVal : Value → Bool
  | .null => false
  | .str s => ¬(s = "" ∨ s = "<no value>")
  | _ => true

mutual

/-- processTemplate (src/cli.go): strings are evaluated and
opportunistically coerced to numbers, maps and arrays recurse with empty/nil
values dropped, and any other leaf passes through unchanged. -/
def processTemplate (templateData : TVal) (ctx : ExecutionContext) : Except String Value :=
  match templateData with
  | .pat p =>
      match evaluateTemplate p ctx with
      | .error e => .error e
      | .ok result =>
          match parseJSONNumber result with
          | some n => .ok (.int n)
          | none => .ok (.str result)
  | .obj kvs =>
      match processTemplateObj kvs ctx with
      | .error e => .error e
      | .ok m => .ok (.obj m)
  | .arr xs =>
      match processTemplateArr xs ctx with
      | .error e => .error e
      | .ok ys => .ok (.arr ys)
  | .int n => .ok (.int n)
  | .bool b => .ok (.bool b)
  | .null => .ok .null

/-- The map case's loop: process each entry, wrapping an entry error with its
key, and keep only entries whose processed value passes `keepVal`. -/
def processTemplateObj (kvs : List (String × TVal)) (ctx : ExecutionContext) :
    Except String (List (String × Value)) :=
  match kvs with
  | [] => .ok []
  | (k, tv) :: rest =>
      match processTemplate tv ctx with
      | .error e => .error ("failed to process key " ++ k ++ ": " ++ e)
      | .ok pv =>
          match processTemplateObj rest ctx with
          | .error e => .error e
          | .ok m => .ok (if keepVal pv then (k, pv) :: m else m)

/-- The array case's loop: process each element in order, keeping only
elements whose processed value passes `keepVal`. -/
def processTemplateArr (xs : List TVal) (ctx : ExecutionContext) :
    Except String (List Value) :=
  match xs with
  | [] => .ok []
  | tv :: rest =>
      match processTemplate tv ctx with
      | .error e => .error e
      | .ok pv =>
          match processTemplateArr rest ctx with
          | .error e => .error e
          | .ok ys => .ok (if keepVal pv then pv :: ys else ys)

end

example :
    processTemplate
      (.obj [("name", .pat [.ref "Key" []]), ("address", .pat [.ref "Value" ["addr"]]),
             ("meta", .obj [("type", .pat [.ref "Value" ["type"]])])])
      ⟨"test-node", [("addr", .str "10.0.0.1"), ("type", .str "web")], "", .null⟩
    = .ok (.obj [("name", .str "test-node"), ("address", .str "10.0.0.1"),
                 ("meta", .obj [("type", .str "web")])]) := by rfl

example :
    processTemplate (.pat [.ref "Value" ["port"]])
      ⟨"", [("port", .int 8080)], "", .null⟩ = .ok (.int 8080) := by rfl

example :
    processTemplate
      (.obj [("name", .pat [.ref "Key" []]), ("address", .pat [.ref "Value" ["addr"]])])
      ⟨"n1", [], "", .null⟩ = .ok (.obj [("name", .str "n1")]) := by rfl

/-- Go type assertion `x.(string)` with ignored `ok`: the string, or the zero
value `""` when the assertion fails (including when the key is absent). -/
def typedStr : Option Value → String
  | some (.str s) => s
  | _ => ""

/-- Go type assertion `x.(map[string]interface\x7b\x7d)` with ignored `ok`: the
map, or nil (`none`) when the assertion fails. -/
def typedObj : Option Value → Option (List (String × Value))
  | some (.obj m) => some m
  | _ => none

/-- wrapNodeOperation (src/cli.go): unconditional Node envelope. -/
def wrapNodeOperation (verb : String) (data : List (String × Value)) : Value :=
  .obj [("Node", .obj [("Verb", .str verb), ("Node", .obj data)])]

/-- wrapServiceOperation (src/cli.go): requires a `"Node"` string field and a
`"Service"` map field in the processed data. -/
def wrapServiceOperation (verb : String) (data : List (String × Value)) :
    Except String Value :=
  let nodeName := typedStr (data.lookup "Node")
  if nodeName = "" then .error "invalid service operation: missing Node or Service"
  else
    match typedObj (data.lookup "Service") with
    | none => .error "invalid service operation: missing Node or Service"
    | some serviceData =>
        .ok (.obj [("Service", .obj [("Verb", .str verb), ("Node", .str nodeName),
                                     ("Service", .obj serviceData)])])

/-- wrapCheckOperation (src/cli.go): the Service contract with `"Check"`. -/
def wrapCheckOperation (verb : String) (data : List (String × Value)) :
    Except String Value :=
  let nodeName := typedStr (data.lookup "Node")
  if nodeName = "" then .error "invalid check operation: missing Node or Check"
  else
    match typedObj (data.lookup "Check") with
    | none => .error "invalid check operation: missing Node or Check"
    | some checkData =>
        .ok (.obj [("Check", .obj [("Verb", .str verb), ("Node", .str nodeName),
                                   ("Check", .obj checkData)])])

/-- wrapOperation (src/cli.go): dispatch on the rule's target kind. -/
def wrapOperation (opType verb : String) (data : List (String × Value)) :
    Except String Value :=
  match opType with
  | "Node" => .ok (wrapNodeOperation verb data)
  | "Service" => wrapServiceOperation verb data
  | "Check" => wrapCheckOperation verb data
  | t => .error ("unknown operation type: " ++ t)

/-- generateSingleOperation (src/cli.go): process the rule's template,
require a map result, default the verb to `"set"`, and wrap. -/
def generateSingleOperation (rule : OperationRule) (ctx : ExecutionContext) :
    Except String Value :=
  match processTemplate (.obj rule.template) ctx with
  | .error e => .error ("template processing failed: " ++ e)
  | .ok processed =>
      match processed with
      | .obj processedMap =>
          let verb := if rule.verb = "" then "set" else rule.verb
          wrapOperation rule.type verb processedMap
      | _ => .error "template result is not a map"

/-- Dot-join of path segments (helper for `parseFieldPath`). -/
def joinDots : List String → String
  | [] => ""
  | [f] => f
  | f :: rest => f ++ "." ++ joinDots rest

/-- parseFieldPath (src/cli.go): the field path of a pattern that is exactly
one `.Value.`-rooted reference, `""` otherwise. (The source trims the
delimiters of the raw pattern string and strips the `.Value.` prefix; on the
parsed form that is the dotted tail of a single `Value` reference.) -/
def parseFieldPath : Pat → String
  | [Tok.ref "Value" rest] => joinDots rest
  | _ => ""

/-- getNestedField (src/cli.go): direct lookup of a (single-segment) field
path in the record's field map. -/
def getNestedField (data : List (String × Value)) (path : String) : Option Value :=
  data.lookup path

/-- evaluateForeach (src/cli.go): render the expression (an execution
failure means "the field might not exist", yielding no items), drop empty or
`<no value>` renders, try the direct structured lookup of a `.Value.`-rooted
field path, then fall back to parsing the rendered text as a JSON array;
anything else yields no items. Only a pattern parse error is a real error,
which the parsed embedding cannot represent. -/
def evaluateForeach (expr : Pat) (ctx : ExecutionContext) :
    Except String (List Value) :=
  match execPat ctx expr with
  | .error _ => .ok []
  | .ok result =>
      if result = "" ∨ result = "<no value>" then .ok []
      else
        match (if parseFieldPath expr = "" then none
               else getNestedField ctx.value (parseFieldPath expr)) with
        | some (.arr items) => .ok items
        | _ =>
            match jsonParseArray result with
            | some items => .ok items
            | none => .ok []

/-- The per-item context built by processForeach (src/cli.go): the base
context's `Key`, `Value` and `Datacenter` with `Item` set to the current
item. -/
def itemContext (ctx : ExecutionContext) (item : Value) : ExecutionContext :=
  { key := ctx.key, value := ctx.value, datacenter := ctx.datacenter, item := item }

/-- The item loop of processForeach (src/cli.go): one operation attempt per
item in order; a failed item is logged and skipped. -/
def foreachLoop (rule : OperationRule) (ctx : ExecutionContext) :
    List Value → List Value
  | [] => []
  | item :: rest =>
      match generateSingleOperation rule (itemContext ctx item) with
      | .error _ => foreachLoop rule ctx rest
      | .ok op => op :: foreachLoop rule ctx rest

/-- processForeach (src/cli.go): evaluate the foreach expression and run the
item loop (an empty item list returns early with no operations). -/
def processForeach (rule : OperationRule) (ctx : ExecutionContext) :
    Except String (List Value) :=
  match evaluateForeach (rule.foreach.getD []) ctx with
  | .error e => .error e
  | .ok items =>
      if items.isEmpty then .ok []
      else .ok (foreachLoop rule ctx items)

/-- The post-condition part of the GenerateOperations loop body. -/
def ruleOpsBody (ctx : ExecutionContext) (rule : OperationRule) : List Value :=
  match rule.foreach with
  | some _ =>
      (match processForeach rule ctx with
       | .error _ => []
       | .ok ops => ops)
  | none =>
      match generateSingleOperation rule ctx with
      | .error _ => []
      | .ok op => [op]

/-- The loop body of GenerateOperations (src/cli.go) for one rule: the
operations the rule contributes. A failed condition evaluation, a failed
foreach, or a failed single generation is logged and skipped. -/
def ruleOps (ctx : ExecutionContext) (rule : OperationRule) : List Value :=
  match rule.condition with
  | some c =>
      (match evaluateTemplate c ctx with
       | .error _ => []
       | .ok result =>
           if result = "" ∨ result = "false" ∨ result = "<no value>" then []
           else ruleOpsBody ctx rule)
  | none => ruleOpsBody ctx rule

/-- GenerateOperations (src/cli.go): every rule's contribution in document
order; the function's single return site returns a nil error. -/
def GenerateOperations (ctx : ExecutionContext) (config : MappingConfig) :
    Except String (List Value) :=
  .ok (config.operations.flatMap (ruleOps ctx))

example :
    GenerateOperations
      ⟨"test-node-001",
       [("field1", .str "service-a"), ("field2", .str "10.0.0.1"), ("field3", .str "type-a")],
       "dc1", .null⟩
      ⟨[{ type := "Node", verb := "set", condition := none, foreach := none,
          template := [("Node", .pat [.ref "Key" []]),
                       ("Address", .pat [.ref "Value" ["field2"]]),
                       ("Datacenter", .pat [.ref "Datacenter" []]),
                       ("Meta", .obj [("type", .pat [.ref "Value" ["field3"]])])] },
        { type := "Service", verb := "set", condition := some [.ref "Value" ["field1"]],
          foreach := none,
          template := [("Node", .pat [.ref "Key" []]),
                       ("Service", .obj [("ID", .pat [.ref "Value" ["field1"]]),
                                         ("Service", .pat [.ref "Value" ["field1"]]),
                                         ("Tags", .arr [.pat [.ref "Value" ["field3"]]])])] }]⟩
    = .ok
      [.obj [("Node", .obj [("Verb", .str "set"),
                            ("Node", .obj [("Node", .str "test-node-001"),
                                           ("Address", .str "10.0.0.1"),
                                           ("Datacenter", .str "dc1"),
                                           ("Meta", .obj [("type", .str "type-a")])])])],
       .obj [("Service", .obj [("Verb", .str "set"),
                               ("Node", .str "test-node-001"),
                               ("Service", .obj [("ID", .str "service-a"),
                                                 ("Service", .str "service-a"),
                                                 ("Tags", .arr [.str "type-a"])])])]] := by rfl

example :
    (GenerateOperations
      ⟨"test-node-002",
       [("field1", .str "main-service"),
        ("nested_field", .arr [.obj [("item1", .str "sub1"), ("item2", .int 8080)],
                               .obj [("item1", .str "sub2"), ("item2", .int 9090)]])],
       "dc1", .null⟩
      ⟨[{ type := "Service", verb := "set", condition := none,
          foreach := some [.ref "Value" ["nested_field"]],
          template := [("Node", .pat [.ref "Key" []]),
                       ("Service", .obj [("ID", .pat [.ref "Item" ["item1"]]),
                                         ("Service", .pat [.ref "Value" ["field1"]]),
                                         ("Port", .pat [.ref "Item" ["item2"]])])] }]⟩).map
      List.length = .ok 2 := by rfl

example :
    GenerateOperations
      ⟨"test-node-003", [("field2", .str "10.0.0.3"), ("field3", .str "type-c")], "dc1", .null⟩
      ⟨[{ type := "Service", verb := "set", condition := some [.ref "Value" ["field1"]],
          foreach := none,
          template := [("Node", .pat [.ref "Key" []]),
                       ("Service", .obj [("ID", .pat [.ref "Value" ["field1"]]),
                                         ("Service", .pat [.ref "Value" ["field1"]])])] }]⟩
    = .ok [] := by rfl

/-! ## Batch executor (src/consul.go)

HTTP transport is modelled by a function from batch index to the response
the service returns for that submission (`none` for a transport failure);
`json.Unmarshal` of a response body into `TransactionResponse` is carried as
an optional decoded view attached to the body text. The log collects the
lines the source writes with `log.Printf` for per-operation failures
(debug-only output and the `verbose` flag are elided). -/

/-- maxOperationsPerTransaction (src/consul.go). -/
def maxOperationsPerTransaction : Nat := 64

/-- The batch partition the loop in ExecuteOperations (src/consul.go)
produces: consecutive slices of at most 64 operations. Recursion is by fuel
bounded by the list length, which each step strictly shrinks. -/
def batchListAux : Nat → List Value → List (List Value)
  | 0, _ => []
  | _, [] => []
  | fuel + 1, ops =>
      ops.take maxOperationsPerTransaction ::
        batchListAux fuel (ops.drop maxOperationsPerTransaction)

/-- See `batchListAux`. -/
def batchList (ops : List Value) : List (List Value) := batchListAux ops.length ops

/-- TransactionError (src/consul.go). -/
structure TransactionError where
  OpIndex : Int
  What : String
deriving Repr

/-- TransactionResponse (src/consul.go). -/
structure TransactionResponse where
  Results : List Value
  Errors : List TransactionError
deriving Repr

/-- A response body: its text together with the result of `json.Unmarshal`
into `TransactionResponse` (kept abstract as an attached view). -/
structure RespBody where
  text : String
  decoded : Option TransactionResponse
deriving Repr

/-- An HTTP response from the transaction endpoint. -/
structure HttpResp where
  status : Nat
  body : RespBody
deriving Repr

/-- formatTransactionErrors (src/consul.go): log every per-operation error,
return the first as the representative failure; an empty list is an unknown
error. The first component is the log lines written. -/
def formatTransactionErrors (errors : List TransactionError) :
    List String × Except String Unit :=
  match errors with
  | [] => ([], .error "transaction failed with unknown error")
  | e0 :: _ =>
      (errors.map fun e => "[ERROR] Operation " ++ toString e.OpIndex ++ " failed: " ++ e.What,
       .error ("transaction failed: operation " ++ toString e0.OpIndex ++ ": " ++ e0.What))

/-- handleTransactionConflict (src/consul.go): use the decoded error list
when the body unmarshals, otherwise report the raw rollback. -/
def handleTransactionConflict (body : RespBody) (statusCode : Nat) :
    List String × Except String Unit :=
  match body.decoded with
  | some result => formatTransactionErrors result.Errors
  | none =>
      ([], .error ("transaction rolled back (status " ++ toString statusCode ++ "): " ++ body.text))

/-- processResponse (src/consul.go): 200 succeeds, 409 is a transaction
conflict, anything else is a raw HTTP error. -/
def processResponse (resp : HttpResp) : List String × Except String Unit :=
  if resp.status = 200 then ([], .ok ())
  else if resp.status = 409 then handleTransactionConflict resp.body resp.status
  else ([], .error ("HTTP " ++ toString resp.status ++ ": " ++ resp.body.text))

/-- The observable outcome of a run of ExecuteOperations: how many batches
were submitted to the service, the failure-log lines written, and the
returned error. -/
structure ExecOutcome where
  submitted : Nat
  log : List String
  result : Except String Unit
deriving Repr

/-- The batch loop of ExecuteOperations (src/consul.go): submit each batch in
order; a failed batch returns `batch N failed: ...` at once, so later
batches are never submitted. `net` maps a batch index to the response the
service gives it (`none` = transport failure). -/
def execLoop (net : Nat → Option HttpResp) :
    List (List Value) → Nat → ExecOutcome
  | [], _ => ⟨0, [], .ok ()⟩
  | _ :: rest, idx =>
      match net idx with
      | none =>
          ⟨1, [], .error ("batch " ++ toString (idx + 1) ++ " failed: failed to send request")⟩
      | some resp =>
          match processResponse resp with
          | (lg, .ok _) =>
              let o := execLoop net rest (idx + 1)
              ⟨o.submitted + 1, lg ++ o.log, o.result⟩
          | (lg, .error e) =>
              ⟨1, lg, .error ("batch " ++ toString (idx + 1) ++ " failed: " ++ e)⟩

/-- ExecuteOperations (src/consul.go): empty input is a no-op success;
otherwise submit the batch partition sequentially. -/
def ExecuteOperations (operations : List Value) (net : Nat → Option HttpResp) :
    ExecOutcome :=
  if operations.isEmpty then ⟨0, ["[WARN] No operations to execute"], .ok ()⟩
  else execLoop net (batchList operations) 0

example :
    (ExecuteOperations [.null] fun _ =>
      some ⟨409, ⟨"", some ⟨[], [⟨3, "duplicate"⟩]⟩⟩⟩) =
    ⟨1, ["[ERROR] Operation 3 failed: duplicate"],
     .error "batch 1 failed: transaction failed: operation 3: duplicate"⟩ := by rfl

example :
    (ExecuteOperations (List.replicate 70 Value.null) fun _ => some ⟨200, ⟨"", none⟩⟩) =
    ⟨2, [], .ok ()⟩ := by rfl

/-! ## Batch partitioning lemmas (claim C1) -/

theorem batchListAux_nil (fuel : Nat) : batchListAux fuel [] = [] := by
  cases fuel <;> rfl

theorem batchListAux_flatten :
    ∀ (fuel : Nat) (ops : List Value), ops.length ≤ fuel →
      (batchListAux fuel ops).flatten = ops := by
  intro fuel
  induction fuel with
  | zero =>
      intro ops h
      have : ops = [] := List.eq_nil_of_length_eq_zero (Nat.le_zero.mp h)
      simp [this, batchListAux]
  | succ n ih =>
      intro ops h
      match ops with
      | [] => simp [batchListAux]
      | a :: l =>
          rw [show batchListAux (n + 1) (a :: l)
                = (a :: l).take maxOperationsPerTransaction ::
                  batchListAux n ((a :: l).drop maxOperationsPerTransaction) from rfl]
          rw [List.flatten_cons, ih _ (by simp [maxOperationsPerTransaction] at h ⊢; omega)]
          exact List.take_append_drop _ _

theorem batchListAux_length :
    ∀ (fuel : Nat) (ops : List Value), ops.length ≤ fuel →
      (batchListAux fuel ops).length = (ops.length + 63) / 64 := by
  intro fuel
  induction fuel with
  | zero =>
      intro ops h
      have : ops = [] := List.eq_nil_of_length_eq_zero (Nat.le_zero.mp h)
      simp [this, batchListAux]
  | succ n ih =>
      intro ops h
      match ops with
      | [] => simp [batchListAux]
      | a :: l =>
          rw [show batchListAux (n + 1) (a :: l)
                = (a :: l).take maxOperationsPerTransaction ::
                  batchListAux n ((a :: l).drop maxOperationsPerTransaction) from rfl]
          rw [List.length_cons, ih _ (by simp [maxOperationsPerTransaction] at h ⊢; omega)]
          simp only [List.length_drop, maxOperationsPerTransaction]
          have hl : 1 ≤ (a :: l).length := by simp
          omega

theorem batchListAux_ne_nil (fuel : Nat) (ops : List Value)
    (h : ops.length ≤ fuel) (hne : ops ≠ []) : batchListAux fuel ops ≠ [] := by
  match fuel, ops with
  | 0, ops =>
      exact absurd (List.eq_nil_of_length_eq_zero (Nat.le_zero.mp h)) hne
  | n + 1, [] => exact absurd rfl hne
  | n + 1, a :: l => simp [batchListAux]

theorem length_drop_le_of_le {l : List Value} {n : Nat}
    (h : l.length ≤ n + 1) (hne : l ≠ []) :
    (l.drop maxOperationsPerTransaction).length ≤ n := by
  have h1 : 1 ≤ l.length := List.length_pos.mpr hne
  simp only [List.length_drop, maxOperationsPerTransaction]
  omega

theorem batchListAux_dropLast :
    ∀ (fuel : Nat) (ops : List Value), ops.length ≤ fuel →
      ∀ b ∈ (batchListAux fuel ops).dropLast, b.length = 64 := by
  intro fuel
  induction fuel with
  | zero =>
      intro ops h
      have : ops = [] := List.eq_nil_of_length_eq_zero (Nat.le_zero.mp h)
      simp [this, batchListAux]
  | succ n ih =>
      intro ops h b hb
      match ops with
      | [] => simp [batchListAux] at hb
      | a :: l =>
          rw [show batchListAux (n + 1) (a :: l)
                = (a :: l).take maxOperationsPerTransaction ::
                  batchListAux n ((a :: l).drop maxOperationsPerTransaction) from rfl] at hb
          have hdl : ((a :: l).drop maxOperationsPerTransaction).length ≤ n :=
            length_drop_le_of_le h (by simp)
          by_cases hd : (a :: l).drop maxOperationsPerTransaction = []
          · rw [hd, batchListAux_nil] at hb
            simp at hb
          · have hgt : maxOperationsPerTransaction < (a :: l).length := by
              by_contra hle
              exact hd (List.drop_eq_nil_of_le (by omega))
            rw [List.dropLast_cons_of_ne_nil (batchListAux_ne_nil _ _ hdl hd)] at hb
            rcases List.mem_cons.mp hb with hb' | hb'
            · subst hb'
              simp only [List.length_take, maxOperationsPerTransaction] at hgt ⊢
              omega
            · exact ih _ hdl b hb'

theorem batchListAux_getLast? :
    ∀ (fuel : Nat) (ops : List Value), ops.length ≤ fuel →
      ∀ b, (batchListAux fuel ops).getLast? = some b →
        b.length = if ops.length % 64 = 0 then 64 else ops.length % 64 := by
  intro fuel
  induction fuel with
  | zero =>
      intro ops h b hb
      have : ops = [] := List.eq_nil_of_length_eq_zero (Nat.le_zero.mp h)
      rw [this, batchListAux_nil] at hb
      simp at hb
  | succ n ih =>
      intro ops h b hb
      match ops with
      | [] =>
          rw [batchListAux_nil] at hb
          simp at hb
      | a :: l =>
          rw [show batchListAux (n + 1) (a :: l)
                = (a :: l).take maxOperationsPerTransaction ::
                  batchListAux n ((a :: l).drop maxOperationsPerTransaction) from rfl] at hb
          have hdl : ((a :: l).drop maxOperationsPerTransaction).length ≤ n :=
            length_drop_le_of_le h (by simp)
          have h1 : 1 ≤ (a :: l).length := by simp
          by_cases hd : (a :: l).drop maxOperationsPerTransaction = []
          · have hle : (a :: l).length ≤ maxOperationsPerTransaction := by
              by_contra hgt
              have := congrArg List.length hd
              simp only [List.length_drop, List.length_nil] at this
              simp only [maxOperationsPerTransaction] at this hgt
              omega
            rw [hd, batchListAux_nil] at hb
            simp only [List.getLast?_singleton, Option.some.injEq] at hb
            subst hb
            simp only [List.length_take, maxOperationsPerTransaction] at hle ⊢
            rcases Nat.lt_or_ge (a :: l).length 64 with hlt | hge
            · rw [if_neg (by omega)]
              omega
            · have h64 : (a :: l).length = 64 := by omega
              rw [h64]
              norm_num
          · have hrest := batchListAux_ne_nil _ _ hdl hd
            rcases hr : batchListAux n ((a :: l).drop maxOperationsPerTransaction) with _ | ⟨b0, rest⟩
            · exact absurd hr hrest
            · rw [hr, List.getLast?_cons_cons] at hb
              have hmod := ih _ hdl b (hr ▸ hb)
              have hgt : maxOperationsPerTransaction < (a :: l).length := by
                by_contra hle
                exact hd (List.drop_eq_nil_of_le (by omega))
              simp only [List.length_drop, maxOperationsPerTransaction] at hmod hgt
              have hmodeq : ((a :: l).length - 64) % 64 = (a :: l).length % 64 := by
                omega
              rw [hmodeq] at hmod
              exact hmod

/-- Claim C1: for every operation list given to ExecuteOperations, the batch
partition is exact — the batch count equals ceil(N/64), every batch except
possibly the last has exactly 64 operations, the last has N mod 64
operations (or 64 when N is a positive multiple of 64), and the batches
concatenate back to the original list in order. -/
theorem c1_batch_partition_exact (ops : List Value) :
    (batchList ops).length = (ops.length + 63) / 64
    ∧ (∀ b ∈ (batchList ops).dropLast, b.length = 64)
    ∧ (∀ b, (batchList ops).getLast? = some b →
        b.length = if ops.length % 64 = 0 then 64 else ops.length % 64)
    ∧ (batchList ops).flatten = ops := by
  refine ⟨batchListAux_length _ _ le_rfl, batchListAux_dropLast _ _ le_rfl,
          batchListAux_getLast? _ _ le_rfl, batchListAux_flatten _ _ le_rfl⟩

/-- Witness for C1 at a 130-operation list: three batches of sizes 64, 64
and 2 that concatenate back to the input. -/
theorem c1_batch_partition_exact_witness :
    (batchList (List.replicate 130 Value.null)).length = 3
    ∧ (List.replicate 64 Value.null).length = 64
    ∧ (List.replicate 2 Value.null).length = 2
    ∧ (batchList (List.replicate 130 Value.null)).flatten = List.replicate 130 Value.null := by
  have h := c1_batch_partition_exact (List.replicate 130 Value.null)
  refine ⟨?_, ?_, ?_, h.2.2.2⟩
  · rw [h.1]
    rfl
  · refine h.2.1 _ ?_
    rw [show (batchList (List.replicate 130 Value.null)).dropLast
          = [List.replicate 64 Value.null, List.replicate 64 Value.null] from rfl]
    exact List.mem_cons_self _ _
  · have hl := h.2.2.1 (List.replicate 2 Value.null)
      (by rw [show (batchList (List.replicate 130 Value.null)).getLast?
                = some (List.replicate 2 Value.null) from rfl])
    refine hl.trans ?_
    simp

/-! ## Conflict handling lemmas (claim C2) -/

theorem processResponse_ok (resp : HttpResp) (h : resp.status = 200) :
    processResponse resp = ([], .ok ()) := by
  simp [processResponse, h]

theorem processResponse_conflict_decoded (txt : String) (res : List Value)
    (errs : List TransactionError) :
    processResponse ⟨409, ⟨txt, some ⟨res, errs⟩⟩⟩ = formatTransactionErrors errs := by
  norm_num [processResponse, handleTransactionConflict]

theorem execLoop_conflict :
    ∀ (k : Nat) (batches : List (List Value)) (net : Nat → Option HttpResp) (idx : Nat)
      (txt : String) (res : List Value) (e0 : TransactionError) (tl : List TransactionError),
      k < batches.length →
      (∀ j, j < k → ∃ b, net (idx + j) = some b ∧ b.status = 200) →
      net (idx + k) = some ⟨409, ⟨txt, some ⟨res, e0 :: tl⟩⟩⟩ →
      (execLoop net batches idx).result
          = .error ("batch " ++ toString (idx + k + 1) ++ " failed: "
                    ++ ("transaction failed: operation " ++ toString e0.OpIndex ++ ": " ++ e0.What))
      ∧ (∀ e ∈ e0 :: tl,
          ("[ERROR] Operation " ++ toString e.OpIndex ++ " failed: " ++ e.What)
            ∈ (execLoop net batches idx).log)
      ∧ (execLoop net batches idx).submitted = k + 1 := by
  intro k
  induction k with
  | zero =>
      intro batches net idx txt res e0 tl hk h200 hconf
      match batches with
      | [] => simp at hk
      | b :: rest =>
          rw [Nat.add_zero] at hconf
          simp only [execLoop, hconf, processResponse_conflict_decoded,
                     formatTransactionErrors, Nat.add_zero]
          refine ⟨by trivial, ?_, by trivial⟩
          intro e he
          exact List.mem_map_of_mem _ he
  | succ k ih =>
      intro batches net idx txt res e0 tl hk h200 hconf
      match batches with
      | [] => simp at hk
      | b :: rest =>
          obtain ⟨b0, hb0, hb0s⟩ := h200 0 (Nat.succ_pos k)
          rw [Nat.add_zero] at hb0
          have hnext : net (idx + 1 + k) = some ⟨409, ⟨txt, some ⟨res, e0 :: tl⟩⟩⟩ := by
            rw [show idx + 1 + k = idx + (k + 1) by omega]
            exact hconf
          have h200' : ∀ j, j < k → ∃ c, net (idx + 1 + j) = some c ∧ c.status = 200 := by
            intro j hj
            obtain ⟨c, hc, hcs⟩ := h200 (j + 1) (by omega)
            exact ⟨c, by rw [show idx + 1 + j = idx + (j + 1) by omega]; exact hc, hcs⟩
          have hk' : k < rest.length := by
            simp only [List.length_cons] at hk
            omega
          obtain ⟨ihr, ihl, ihs⟩ := ih rest net (idx + 1) txt res e0 tl hk' h200' hnext
          simp only [execLoop, hb0, processResponse_ok b0 hb0s]
          refine ⟨?_, ?_, ?_⟩
          · rw [show idx + (k + 1) + 1 = idx + 1 + k + 1 by omega]
            exact ihr
          · intro e he
            exact List.mem_append_right _ (ihl e he)
          · rw [ihs]

/-- Claim C2: when a batch submission receives an HTTP 409 whose body decodes
to a (non-empty) Errors list, ExecuteOperations returns a fatal error naming
the failing batch number and the first listed operation's OpIndex and What,
every per-operation message is written to the failure log, and no batch
after the failing one is submitted. -/
theorem c2_conflict_fatal (ops : List Value) (net : Nat → Option HttpResp)
    (k : Nat) (txt : String) (res : List Value)
    (e0 : TransactionError) (tl : List TransactionError)
    (hk : k < (batchList ops).length)
    (h200 : ∀ j, j < k → ∃ b, net j = some b ∧ b.status = 200)
    (hconf : net k = some ⟨409, ⟨txt, some ⟨res, e0 :: tl⟩⟩⟩) :
    (ExecuteOperations ops net).result
        = .error ("batch " ++ toString (k + 1) ++ " failed: "
                  ++ ("transaction failed: operation " ++ toString e0.OpIndex ++ ": " ++ e0.What))
    ∧ (∀ e ∈ e0 :: tl,
        ("[ERROR] Operation " ++ toString e.OpIndex ++ " failed: " ++ e.What)
          ∈ (ExecuteOperations ops net).log)
    ∧ (ExecuteOperations ops net).submitted = k + 1 := by
  have hne : ops.isEmpty = false := by
    rcases ops with _ | ⟨a, l⟩
    · rw [show batchList [] = [] from rfl] at hk
      simp at hk
    · rfl
  have h200' : ∀ j, j < k → ∃ b, net (0 + j) = some b ∧ b.status = 200 := by
    intro j hj
    simpa using h200 j hj
  have hconf' : net (0 + k) = some ⟨409, ⟨txt, some ⟨res, e0 :: tl⟩⟩⟩ := by
    simpa using hconf
  have h := execLoop_conflict k (batchList ops) net 0 txt res e0 tl hk h200' hconf'
  rw [show ExecuteOperations ops net = execLoop net (batchList ops) 0 by
        simp [ExecuteOperations, hne]]
  simpa using h

/-- Witness for C2: two batches of 64 and 6 operations; the first submission
conflicts with errors for operations 3 and 5, so the run fails on batch 1
naming operation 3, logs both messages, and submits only one batch. -/
theorem c2_conflict_fatal_witness :
    (ExecuteOperations (List.replicate 70 Value.null) fun _ =>
        some ⟨409, ⟨"", some ⟨[], [⟨3, "duplicate"⟩, ⟨5, "other"⟩]⟩⟩⟩).result
      = .error "batch 1 failed: transaction failed: operation 3: duplicate"
    ∧ ("[ERROR] Operation 5 failed: other"
        ∈ (ExecuteOperations (List.replicate 70 Value.null) fun _ =>
            some ⟨409, ⟨"", some ⟨[], [⟨3, "duplicate"⟩, ⟨5, "other"⟩]⟩⟩⟩).log)
    ∧ (ExecuteOperations (List.replicate 70 Value.null) fun _ =>
        some ⟨409, ⟨"", some ⟨[], [⟨3, "duplicate"⟩, ⟨5, "other"⟩]⟩⟩⟩).submitted = 1 := by
  have h := c2_conflict_fatal (List.replicate 70 Value.null)
    (fun _ => some ⟨409, ⟨"", some ⟨[], [⟨3, "duplicate"⟩, ⟨5, "other"⟩]⟩⟩⟩)
    0 "" [] ⟨3, "duplicate"⟩ [⟨5, "other"⟩]
    (by rw [show (batchList (List.replicate 70 Value.null)).length = 2 from rfl]; omega)
    (fun j hj => absurd hj (Nat.not_lt_zero j))
    rfl
  exact ⟨h.1, h.2.1 ⟨5, "other"⟩ (by simp), h.2.2⟩

/-! ## Rule engine claims (C3, C9, C10) -/

/-- Claim C3: a condition evaluating to the empty string, `"false"`, or the
`<no value>` marker makes the rule contribute zero operations for that
record, without error, and the remaining rules still run. -/
theorem c3_condition_gate (ctx : ExecutionContext) (pre post : List OperationRule)
    (rule : OperationRule) (c : Pat) (r : String)
    (hc : rule.condition = some c)
    (he : evaluateTemplate c ctx = .ok r)
    (hr : r = "" ∨ r = "false" ∨ r = "<no value>") :
    ruleOps ctx rule = []
    ∧ GenerateOperations ctx ⟨pre ++ rule :: post⟩ = GenerateOperations ctx ⟨pre ++ post⟩ := by
  have h1 : ruleOps ctx rule = [] := by
    simp only [ruleOps, hc, he]
    rw [if_pos hr]
  refine ⟨h1, ?_⟩
  simp [GenerateOperations, h1]

/-- Concrete record context whose `field1` is missing (mirrors the third
test case of the repository). -/
def ctxNoField1 : ExecutionContext :=
  ⟨"test-node-003", [("field2", .str "10.0.0.3"), ("field3", .str "type-c")], "dc1", .null⟩

/-- A Node rule with no condition. -/
def nodeRuleA : OperationRule :=
  { type := "Node", verb := "set", condition := none, foreach := none,
    template := [("Node", .pat [.ref "Key" []]),
                 ("Address", .pat [.ref "Value" ["field2"]]),
                 ("Meta", .obj [("type", .pat [.ref "Value" ["field3"]])])] }

/-- A Service rule gated on `field1`. -/
def serviceRuleCond : OperationRule :=
  { type := "Service", verb := "set", condition := some [.ref "Value" ["field1"]],
    foreach := none,
    template := [("Node", .pat [.ref "Key" []]),
                 ("Service", .obj [("ID", .pat [.ref "Value" ["field1"]])])] }

/-- Witness for C3: with `field1` absent the gated Service rule contributes
nothing, and the run over both rules equals the run over the Node rule
alone. -/
theorem c3_condition_gate_witness :
    ruleOps ctxNoField1 serviceRuleCond = []
    ∧ GenerateOperations ctxNoField1 ⟨[nodeRuleA, serviceRuleCond]⟩
        = GenerateOperations ctxNoField1 ⟨[nodeRuleA]⟩ := by
  have h := c3_condition_gate ctxNoField1 [nodeRuleA] [] serviceRuleCond
    [.ref "Value" ["field1"]] "" rfl rfl (Or.inl rfl)
  exact h

/-- Helper: the foreach item loop is a filterMap of per-item generation, each
item's context derived from the unchanged base context. -/
theorem foreachLoop_eq_filterMap (rule : OperationRule) (ctx : ExecutionContext) :
    ∀ items : List Value,
      foreachLoop rule ctx items
        = items.filterMap fun it => (generateSingleOperation rule (itemContext ctx it)).toOption := by
  intro items
  induction items with
  | nil => rfl
  | cons it rest ih =>
      simp only [foreachLoop, List.filterMap_cons]
      cases h : generateSingleOperation rule (itemContext ctx it) <;>
        simp [Except.toOption, h, ih]

/-- Claim C9: the per-item context derived in processForeach keeps the base
context's record key, record field mapping and datacenter, differing only in
the current item; the base context is never altered, every iteration's
result depending only on the base context and its own item. -/
theorem c9_item_context_frame (ctx : ExecutionContext) (item : Value) :
    ((itemContext ctx item).key = ctx.key
     ∧ (itemContext ctx item).value = ctx.value
     ∧ (itemContext ctx item).datacenter = ctx.datacenter
     ∧ (itemContext ctx item).item = item)
    ∧ ∀ (rule : OperationRule) (items : List Value),
        foreachLoop rule ctx items
          = items.filterMap fun it => (generateSingleOperation rule (itemContext ctx it)).toOption :=
  ⟨⟨rfl, rfl, rfl, rfl⟩, fun rule items => foreachLoop_eq_filterMap rule ctx items⟩

/-- Claim C10: GenerateOperations returns a nil error for every context and
mapping configuration — every per-rule and per-item failure is swallowed
inside the loop, so a caller can never observe a failure through its error
result. -/
theorem c10_generate_operations_never_errors (ctx : ExecutionContext) (config : MappingConfig) :
    ∃ ops, GenerateOperations ctx config = .ok ops :=
  ⟨_, rfl⟩

/-! ## Wrapping claims (C8) -/

theorem typedStr_eq_empty {o : Option Value} (h : ∀ s, o ≠ some (.str s)) :
    typedStr o = "" := by
  match o with
  | none => rfl
  | some (.str s) => exact absurd rfl (h s)
  | some (.int n) => rfl
  | some (.bool b) => rfl
  | some .null => rfl
  | some (.arr xs) => rfl
  | some (.obj kvs) => rfl

theorem typedObj_eq_none {o : Option Value} (h : ∀ m, o ≠ some (.obj m)) :
    typedObj o = none := by
  match o with
  | none => rfl
  | some (.str s) => rfl
  | some (.int n) => rfl
  | some (.bool b) => rfl
  | some .null => rfl
  | some (.arr xs) => rfl
  | some (.obj kvs) => exact absurd rfl (h kvs)

theorem wrapServiceOperation_missing (verb : String) (data : List (String × Value))
    (h : (∀ s, data.lookup "Node" ≠ some (Value.str s))
         ∨ (∀ m, data.lookup "Service" ≠ some (Value.obj m))) :
    wrapServiceOperation verb data = .error "invalid service operation: missing Node or Service" := by
  rcases h with h | h
  · simp [wrapServiceOperation, typedStr_eq_empty h]
  · by_cases hn : typedStr (data.lookup "Node") = ""
    · simp [wrapServiceOperation, hn]
    · simp [wrapServiceOperation, hn, typedObj_eq_none h]

theorem wrapCheckOperation_missing (verb : String) (data : List (String × Value))
    (h : (∀ s, data.lookup "Node" ≠ some (Value.str s))
         ∨ (∀ m, data.lookup "Check" ≠ some (Value.obj m))) :
    wrapCheckOperation verb data = .error "invalid check operation: missing Node or Check" := by
  rcases h with h | h
  · simp [wrapCheckOperation, typedStr_eq_empty h]
  · by_cases hn : typedStr (data.lookup "Node") = ""
    · simp [wrapCheckOperation, hn]
    · simp [wrapCheckOperation, hn, typedObj_eq_none h]

/-- Claim C8: wrapping a Service operation from a processed map lacking a
`"Node"` string field or a `"Service"` mapping field fails with the
missing-field error and produces no operation; the same holds for Check
operations with `"Node"`/`"Check"`; and such a failure does not abort the
run — the surrounding rules still produce their operations. -/
theorem c8_missing_field_wrapping :
    (∀ (verb : String) (data : List (String × Value)),
      ((∀ s, data.lookup "Node" ≠ some (Value.str s))
        ∨ (∀ m, data.lookup "Service" ≠ some (Value.obj m))) →
      wrapServiceOperation verb data
        = .error "invalid service operation: missing Node or Service")
    ∧ (∀ (verb : String) (data : List (String × Value)),
        ((∀ s, data.lookup "Node" ≠ some (Value.str s))
          ∨ (∀ m, data.lookup "Check" ≠ some (Value.obj m))) →
        wrapCheckOperation verb data
          = .error "invalid check operation: missing Node or Check")
    ∧ (∀ (ctx : ExecutionContext) (pre post : List OperationRule) (rule : OperationRule)
         (data : List (String × Value)),
        rule.condition = none → rule.foreach = none →
        processTemplate (.obj rule.template) ctx = .ok (.obj data) →
        ((rule.type = "Service"
           ∧ ((∀ s, data.lookup "Node" ≠ some (Value.str s))
              ∨ (∀ m, data.lookup "Service" ≠ some (Value.obj m))))
         ∨ (rule.type = "Check"
           ∧ ((∀ s, data.lookup "Node" ≠ some (Value.str s))
              ∨ (∀ m, data.lookup "Check" ≠ some (Value.obj m))))) →
        GenerateOperations ctx ⟨pre ++ rule :: post⟩ = GenerateOperations ctx ⟨pre ++ post⟩) := by
  refine ⟨wrapServiceOperation_missing, wrapCheckOperation_missing, ?_⟩
  intro ctx pre post rule data hc hf hp hcase
  have hbody : ruleOps ctx rule = [] := by
    simp only [ruleOps, hc, ruleOpsBody, hf, generateSingleOperation, hp]
    rcases hcase with ⟨ht, hmiss⟩ | ⟨ht, hmiss⟩
    · rw [ht]
      simp only [wrapOperation, wrapServiceOperation_missing _ _ hmiss]
    · rw [ht]
      simp only [wrapOperation, wrapCheckOperation_missing _ _ hmiss]
  simp [GenerateOperations, hbody]

/-- A Service rule whose template yields a map with no `"Node"` field. -/
def serviceRuleMissingNode : OperationRule :=
  { type := "Service", verb := "set", condition := none, foreach := none,
    template := [("Service", .obj [("ID", .pat [.lit "x"])])] }

/-- Witness for C8 at concrete inputs: a Service map without `"Node"`, a
Check map without `"Check"`, and a run in which the failing Service rule is
dropped while the Node rule still produces its operation. -/
theorem c8_missing_field_wrapping_witness :
    wrapServiceOperation "set" [("Service", Value.obj [])]
      = .error "invalid service operation: missing Node or Service"
    ∧ wrapCheckOperation "set" [("Node", Value.str "web-001")]
      = .error "invalid check operation: missing Node or Check"
    ∧ GenerateOperations ctxNoField1 ⟨[nodeRuleA, serviceRuleMissingNode]⟩
        = GenerateOperations ctxNoField1 ⟨[nodeRuleA]⟩ := by
  refine ⟨c8_missing_field_wrapping.1 "set" _ (Or.inl fun s h => ?_),
          c8_missing_field_wrapping.2.1 "set" _ (Or.inr fun m h => ?_),
          c8_missing_field_wrapping.2.2 ctxNoField1 [nodeRuleA] [] serviceRuleMissingNode
            [("Service", Value.obj [("ID", Value.str "x")])] rfl rfl rfl
            (Or.inl ⟨rfl, Or.inl fun s h => ?_⟩)⟩
  · rw [show List.lookup "Node" [("Service", Value.obj [])] = (none : Option Value) from rfl] at h
    cases h
  · rw [show List.lookup "Check" [("Node", Value.str "web-001")] = (none : Option Value) from rfl] at h
    cases h
  · rw [show List.lookup "Node" [("Service", Value.obj [("ID", Value.str "x")])]
          = (none : Option Value) from rfl] at h
    cases h

/-! ## Mapping-node pruning (claim C5) -/

theorem keepVal_iff (pv : Value) :
    keepVal pv = true ↔ (pv ≠ .null ∧ pv ≠ .str "" ∧ pv ≠ .str "<no value>") := by
  cases pv <;> simp [keepVal]

theorem processTemplateObj_mem (ctx : ExecutionContext) :
    ∀ (kvs : List (String × TVal)) (m : List (String × Value)),
      processTemplateObj kvs ctx = .ok m →
      ∀ (k : String) (pv : Value),
        ((k, pv) ∈ m ↔
          ∃ tv, (k, tv) ∈ kvs ∧ processTemplate tv ctx = .ok pv ∧ keepVal pv = true) := by
  intro kvs
  induction kvs with
  | nil =>
      intro m hm k pv
      simp only [processTemplateObj, Except.ok.injEq] at hm
      subst hm
      simp
  | cons kv rest ih =>
      obtain ⟨k0, tv0⟩ := kv
      intro m hm k pv
      rw [show processTemplateObj ((k0, tv0) :: rest) ctx
            = (match processTemplate tv0 ctx with
               | .error e => .error ("failed to process key " ++ k0 ++ ": " ++ e)
               | .ok pv0 =>
                   match processTemplateObj rest ctx with
                   | .error e => .error e
                   | .ok m' => .ok (if keepVal pv0 then (k0, pv0) :: m' else m')) from rfl] at hm
      cases h0 : processTemplate tv0 ctx with
      | error e => rw [h0] at hm; cases hm
      | ok pv0 =>
          rw [h0] at hm
          cases hr : processTemplateObj rest ctx with
          | error e => rw [hr] at hm; cases hm
          | ok m' =>
              rw [hr] at hm
              injection hm with hm'
              subst hm'
              constructor
              · intro hmem
                by_cases hk : keepVal pv0
                · rw [if_pos hk] at hmem
                  rcases List.mem_cons.mp hmem with heq | hmem'
                  · obtain ⟨hk1, hk2⟩ := Prod.mk.injEq .. ▸ heq
                    refine ⟨tv0, ?_, ?_, ?_⟩
                    · rw [hk1]; exact List.mem_cons_self _ _
                    · rw [hk2]; exact h0
                    · rw [hk2]; exact hk
                  · obtain ⟨tv, htv, hp, hkeep⟩ := (ih m' hr k pv).mp hmem'
                    exact ⟨tv, List.mem_cons_of_mem _ htv, hp, hkeep⟩
                · rw [if_neg hk] at hmem
                  obtain ⟨tv, htv, hp, hkeep⟩ := (ih m' hr k pv).mp hmem
                  exact ⟨tv, List.mem_cons_of_mem _ htv, hp, hkeep⟩
              · rintro ⟨tv, htv, hp, hkeep⟩
                rcases List.mem_cons.mp htv with heq | htv'
                · obtain ⟨hk1, hk2⟩ := Prod.mk.injEq .. ▸ heq
                  subst hk1
                  rw [← hk2] at h0
                  rw [hp] at h0
                  injection h0 with h0'
                  subst h0'
                  rw [if_pos hkeep]
                  exact List.mem_cons_self _ _
                · have hmem' := (ih m' hr k pv).mpr ⟨tv, htv', hp, hkeep⟩
                  by_cases hk : keepVal pv0
                  · rw [if_pos hk]
                    exact List.mem_cons_of_mem _ hmem'
                  · rw [if_neg hk]
                    exact hmem'

/-- Claim C5: processing a mapping template yields a mapping containing
exactly the keys (copied verbatim) whose processed values are neither nil,
the empty string, nor the `<no value>` marker; in particular no key with an
empty-string processed value ever appears in the output. -/
theorem c5_mapping_prunes_empty (ctx : ExecutionContext) (kvs : List (String × TVal))
    (out : Value) (h : processTemplate (.obj kvs) ctx = .ok out) :
    ∃ m, out = .obj m
      ∧ (∀ (k : String) (pv : Value),
          ((k, pv) ∈ m ↔
            ∃ tv, (k, tv) ∈ kvs ∧ processTemplate tv ctx = .ok pv
              ∧ pv ≠ .null ∧ pv ≠ .str "" ∧ pv ≠ .str "<no value>"))
      ∧ ∀ k : String, (k, Value.str "") ∉ m := by
  rw [show processTemplate (.obj kvs) ctx
        = (match processTemplateObj kvs ctx with
           | .error e => .error e
           | .ok m => .ok (.obj m)) from rfl] at h
  cases hr : processTemplateObj kvs ctx with
  | error e => rw [hr] at h; cases h
  | ok m =>
      rw [hr] at h
      injection h with h'
      refine ⟨m, h'.symm, ?_, ?_⟩
      · intro k pv
        rw [processTemplateObj_mem ctx kvs m hr k pv]
        constructor
        · rintro ⟨tv, htv, hp, hkeep⟩
          exact ⟨tv, htv, hp, (keepVal_iff pv).mp hkeep⟩
        · rintro ⟨tv, htv, hp, hkeep⟩
          exact ⟨tv, htv, hp, (keepVal_iff pv).mpr hkeep⟩
      · intro k hmem
        obtain ⟨tv, htv, hp, hkeep⟩ :=
          (processTemplateObj_mem ctx kvs m hr k (Value.str "")).mp hmem
        simp [keepVal] at hkeep

/-- The mapping template of the specification's pruning example. -/
def pruneTemplate : List (String × TVal) :=
  [("name", .pat [.ref "Key" []]), ("address", .pat [.ref "Value" ["addr"]])]

/-- The context of the specification's pruning example: key `n1`, empty
record fields. -/
def pruneCtx : ExecutionContext := ⟨"n1", [], "", .null⟩

/-- Witness for C5 at the specification's example: the `address` entry
evaluates empty and is dropped, `name` is kept. -/
theorem c5_mapping_prunes_empty_witness :
    processTemplate (.obj pruneTemplate) pruneCtx = .ok (.obj [("name", Value.str "n1")])
    ∧ ("address", Value.str "") ∉ [("name", Value.str "n1")] := by
  obtain ⟨m, hm, hiff, hno⟩ :=
    c5_mapping_prunes_empty pruneCtx pruneTemplate (.obj [("name", Value.str "n1")]) rfl
  refine ⟨rfl, ?_⟩
  injection hm with hm'
  rw [hm']
  exact hno "address"

/-! ## Evaluator resolution claims (C7) -/

/-- A reference path all of whose resolution steps either index a mapping or
propagate an absent value (the executions that cannot raise a field-access
error). -/
def pathSafe : Option Value → List String → Bool
  | _, [] => true
  | none, _ :: rest => pathSafe none rest
  | some (.obj kvs), f :: rest => pathSafe (kvs.lookup f) rest
  | some _, _ :: _ => false

/-- A whole reference is safe when its head resolves on the context struct
and its tail is `pathSafe` from there. -/
def rootSafe (ctx : ExecutionContext) (f : String) (rest : List String) : Bool :=
  match resolveRoot ctx f with
  | .error _ => false
  | .ok v => pathSafe v rest

/-- Token safety: literals always, references via `rootSafe`. -/
def tokSafe (ctx : ExecutionContext) : Tok → Bool
  | .lit _ => true
  | .ref f rest => rootSafe ctx f rest

theorem walkPath_nil (v : Option Value) : walkPath v [] = .ok v := by
  match v with
  | none => rfl
  | some (.str s) => rfl
  | some (.int n) => rfl
  | some (.bool b) => rfl
  | some .null => rfl
  | some (.arr xs) => rfl
  | some (.obj kvs) => rfl

theorem walkPath_ok_of_pathSafe :
    ∀ (rest : List String) (v : Option Value), pathSafe v rest = true →
      ∃ ov, walkPath v rest = .ok ov := by
  intro rest
  induction rest with
  | nil => intro v _; exact ⟨v, walkPath_nil v⟩
  | cons f rest ih =>
      intro v hsafe
      match v with
      | none => exact ih none hsafe
      | some (.obj kvs) => exact ih (kvs.lookup f) hsafe
      | some (.str s) => simp [pathSafe] at hsafe
      | some (.int n) => simp [pathSafe] at hsafe
      | some (.bool b) => simp [pathSafe] at hsafe
      | some .null => simp [pathSafe] at hsafe
      | some (.arr xs) => simp [pathSafe] at hsafe

theorem execPat_ok_of_safe (ctx : ExecutionContext) :
    ∀ p : Pat, (∀ t ∈ p, tokSafe ctx t = true) → ∃ s, execPat ctx p = .ok s := by
  intro p
  induction p with
  | nil => intro _; exact ⟨"", rfl⟩
  | cons t ts ih =>
      intro hsafe
      obtain ⟨s2, hs2⟩ := ih fun u hu => hsafe u (List.mem_cons_of_mem _ hu)
      have ht := hsafe t (List.mem_cons_self _ _)
      match t with
      | .lit s =>
          exact ⟨s ++ s2, by simp [execPat, execTok, hs2, Bind.bind, Except.bind]⟩
      | .ref f rest =>
          simp only [tokSafe, rootSafe] at ht
          cases hroot : resolveRoot ctx f with
          | error e => rw [hroot] at ht; simp at ht
          | ok v =>
              rw [hroot] at ht
              obtain ⟨ov, hov⟩ := walkPath_ok_of_pathSafe rest v ht
              refine ⟨printResolved ov ++ s2, ?_⟩
              simp [execPat, execTok, resolveRef, hroot, hov, hs2, Bind.bind, Except.bind]

/-- Claim C7 (amended): over the pattern grammar, references whose
resolution only traverses mappings (or falls absent) never raise an error,
and a pattern that is exactly one reference resolving to the absent value
evaluates to the empty string; `evaluateTemplate` can, however, also fail on
a syntactically well-formed pattern whose reference selects a field through
a non-mapping value (see the counterexample), in addition to the
syntax-error case outside the parsed embedding. -/
theorem c7_unresolved_is_empty (ctx : ExecutionContext) (p : Pat)
    (hsafe : ∀ t ∈ p, tokSafe ctx t = true) :
    (∃ s, evaluateTemplate p ctx = .ok s)
    ∧ (∀ f rest, p = [Tok.ref f rest] → resolveRef ctx f rest = .ok none →
        evaluateTemplate p ctx = .ok "") := by
  have heval : ∀ s : String, execPat ctx p = .ok s →
      evaluateTemplate p ctx = if s = "<no value>" ∨ s = "" then .ok "" else .ok s := by
    intro s h
    unfold evaluateTemplate
    rw [h]
  constructor
  · obtain ⟨s, hs⟩ := execPat_ok_of_safe ctx p hsafe
    refine ⟨if s = "<no value>" ∨ s = "" then "" else s, ?_⟩
    rw [heval s hs]
    by_cases hc : s = "<no value>" ∨ s = ""
    · rw [if_pos hc, if_pos hc]
    · rw [if_neg hc, if_neg hc]
  · intro f rest hp hres
    subst hp
    have hex : execPat ctx [Tok.ref f rest] = .ok "<no value>" := by
      simp [execPat, execTok, hres, Bind.bind, Except.bind, printResolved]
    rw [heval _ hex]
    simp

/-- A context whose record field `a` holds a scalar string. -/
def ctxScalarField : ExecutionContext := ⟨"n", [("a", .str "x")], "dc1", .null⟩

/-- Counterexample to C7 as stated: `.Value.a.b` is a syntactically
well-formed pattern and its reference cannot be resolved (field `b` of a
scalar value), yet `evaluateTemplate` returns an execution error rather than
the empty string — so evaluation errors are not limited to malformed
pattern syntax. -/
theorem c7_counterexample :
    evaluateTemplate [.ref "Value" ["a", "b"]] ctxScalarField
      = .error "template execution error: cannot evaluate field b in type interface" := by
  rfl

/-- Witness for the amended C7 at a concrete absent field: a sole
`.Value.missing` reference over an empty record evaluates to the empty
string without error. -/
theorem c7_unresolved_is_empty_witness :
    evaluateTemplate [Tok.ref "Value" ["missing"]] pruneCtx = .ok "" := by
  refine (c7_unresolved_is_empty pruneCtx [Tok.ref "Value" ["missing"]] ?_).2
    "Value" ["missing"] rfl rfl
  intro t ht
  rcases List.mem_cons.mp ht with h | h
  · subst h; rfl
  · cases h

/-! ## Foreach claims (C4) -/

theorem goFmt_arr_ne (xs : List Value) :
    ¬(goFmt (.arr xs) = "" ∨ goFmt (.arr xs) = "<no value>") := by
  have hdata : (goFmt (.arr xs)).data = '[' :: ((joinSpace (goFmtList xs)).data ++ [']']) := by
    show ("[" ++ joinSpace (goFmtList xs) ++ "]").data = _
    simp [String.data_append]
  rintro (h | h) <;> rw [h] at hdata <;> simp at hdata

theorem c4_processForeach_cases_aux (ctx : ExecutionContext) (rule : OperationRule)
    (f : String) (hf : rule.foreach = some [Tok.ref "Value" [f]]) :
    ∀ its, evaluateForeach [Tok.ref "Value" [f]] ctx = .ok its →
      processForeach rule ctx = .ok (foreachLoop rule ctx its) := by
  intro its hev
  unfold processForeach
  rw [hf, show (some [Tok.ref "Value" [f]] : Option Pat).getD [] = [Tok.ref "Value" [f]] from rfl,
      hev]
  match its with
  | [] => rfl
  | it :: rest => rfl

theorem c4_execPat_single_ref (ctx : ExecutionContext) (f : String) :
    execPat ctx [Tok.ref "Value" [f]] = .ok (printResolved (ctx.value.lookup f)) := by
  simp [execPat, execTok, resolveRef, resolveRoot, walkPath, walkPath_nil,
        Bind.bind, Except.bind, String.append_empty]

/-- Claim C4 (amended): for a rule whose foreach pattern is a direct
`.Value.`-field reference, a field holding a sequence of k items produces
exactly one operation per successfully wrapped item in source order; a
missing field produces zero operations and no error; a field that is not a
sequence produces zero operations and no error *provided the rendered text
does not parse as a JSON array* — the source's documented fallback, which
the original claim's parenthetical overlooks (see the counterexample). -/
theorem c4_foreach_per_item (ctx : ExecutionContext) (rule : OperationRule) (f : String)
    (hf : rule.foreach = some [Tok.ref "Value" [f]]) (hne : f ≠ "") :
    (∀ items, ctx.value.lookup f = some (.arr items) →
        processForeach rule ctx
          = .ok (items.filterMap fun it =>
              (generateSingleOperation rule (itemContext ctx it)).toOption))
    ∧ (ctx.value.lookup f = none → processForeach rule ctx = .ok [])
    ∧ (∀ v, ctx.value.lookup f = some v → (∀ its, v ≠ .arr its) →
        jsonParseArray (goFmt v) = none → processForeach rule ctx = .ok []) := by
  have hpf : parseFieldPath [Tok.ref "Value" [f]] = f := rfl
  refine ⟨?_, ?_, ?_⟩
  · intro items hlk
    have hev : evaluateForeach [Tok.ref "Value" [f]] ctx = .ok items := by
      unfold evaluateForeach
      rw [c4_execPat_single_ref, hlk]
      show (if goFmt (.arr items) = "" ∨ goFmt (.arr items) = "<no value>"
            then Except.ok [] else _) = _
      rw [if_neg (goFmt_arr_ne items), hpf, if_neg hne,
          show getNestedField ctx.value f = ctx.value.lookup f from rfl, hlk]
    rw [c4_processForeach_cases_aux ctx rule f hf items hev,
        foreachLoop_eq_filterMap rule ctx items]
  · intro hlk
    have hev : evaluateForeach [Tok.ref "Value" [f]] ctx = .ok [] := by
      unfold evaluateForeach
      rw [c4_execPat_single_ref, hlk]
      rfl
    exact c4_processForeach_cases_aux ctx rule f hf [] hev
  · intro v hlk hnarr hjson
    have hev : evaluateForeach [Tok.ref "Value" [f]] ctx = .ok [] := by
      unfold evaluateForeach
      rw [c4_execPat_single_ref, hlk]
      show (if goFmt v = "" ∨ goFmt v = "<no value>" then Except.ok [] else _) = _
      by_cases hc : goFmt v = "" ∨ goFmt v = "<no value>"
      · rw [if_pos hc]
      · rw [if_neg hc, hpf, if_neg hne,
            show getNestedField ctx.value f = ctx.value.lookup f from rfl, hlk]
        match v, hnarr with
        | .str s, _ => rw [show printResolved (some (Value.str s)) = goFmt (.str s) from rfl, hjson]
        | .int n, _ => rw [show printResolved (some (Value.int n)) = goFmt (.int n) from rfl, hjson]
        | .bool b, _ => rw [show printResolved (some (Value.bool b)) = goFmt (.bool b) from rfl, hjson]
        | .null, _ => rw [show printResolved (some Value.null) = goFmt .null from rfl, hjson]
        | .obj kvs, _ => rw [show printResolved (some (Value.obj kvs)) = goFmt (.obj kvs) from rfl, hjson]
        | .arr xs, hnarr => exact absurd rfl (hnarr xs)
    exact c4_processForeach_cases_aux ctx rule f hf [] hev

/-- A record whose field `f` is the *string* `"[1]"`, not a sequence. -/
def ctxJsonText : ExecutionContext := ⟨"n0", [("f", .str "[1]")], "dc1", .null⟩

/-- A Node rule iterating over `.Value.f`. -/
def foreachRuleJson : OperationRule :=
  { type := "Node", verb := "set", condition := none, foreach := some [.ref "Value" ["f"]],
    template := [("X", .int 1)] }

/-- Counterexample to C4 as stated: the referenced field holds a string (not
a sequence), yet the rendered text parses as a JSON array through the
fallback, so the rule produces one operation instead of zero. -/
theorem c4_counterexample :
    ctxJsonText.value.lookup "f" = some (.str "[1]")
    ∧ processForeach foreachRuleJson ctxJsonText
        = .ok [.obj [("Node", .obj [("Verb", .str "set"), ("Node", .obj [("X", .int 1)])])]] :=
  ⟨rfl, rfl⟩

/-- The foreach fixture of the repository's second test case. -/
def ctxForeach : ExecutionContext :=
  ⟨"test-node-002",
   [("field1", .str "main-service"),
    ("nested_field", .arr [.obj [("item1", .str "sub1"), ("item2", .int 8080)],
                           .obj [("item1", .str "sub2"), ("item2", .int 9090)]])],
   "dc1", .null⟩

/-- The Service rule of the repository's second test case. -/
def foreachRuleSvc : OperationRule :=
  { type := "Service", verb := "set", condition := none,
    foreach := some [.ref "Value" ["nested_field"]],
    template := [("Node", .pat [.ref "Key" []]),
                 ("Service", .obj [("ID", .pat [.ref "Item" ["item1"]]),
                                   ("Service", .pat [.ref "Value" ["field1"]]),
                                   ("Port", .pat [.ref "Item" ["item2"]])])] }

/-- Witness for the amended C4: the two-item sequence produces one operation
per item in order, and the same rule over a record without the field
produces zero operations. -/
theorem c4_foreach_per_item_witness :
    processForeach foreachRuleSvc ctxForeach
      = .ok ([Value.obj [("item1", .str "sub1"), ("item2", .int 8080)],
              Value.obj [("item1", .str "sub2"), ("item2", .int 9090)]].filterMap fun it =>
          (generateSingleOperation foreachRuleSvc (itemContext ctxForeach it)).toOption)
    ∧ processForeach foreachRuleSvc pruneCtx = .ok [] := by
  exact ⟨(c4_foreach_per_item ctxForeach foreachRuleSvc "nested_field" rfl (by decide)).1 _ rfl,
         (c4_foreach_per_item pruneCtx foreachRuleSvc "nested_field" rfl (by decide)).2.1 rfl⟩

/-! ## Scalar coercion claims (C6) -/

